import Mathlib

/-!
Shallow embedding of the Know-Ball trivia engine (src/questions.rs and
src/sql_runner.rs).  Rust strings are modelled as lists of characters,
Rust `f64` arithmetic in the scoring path is modelled exactly by the
rationals, and the `rand` range draws are modelled by arbitrary integer
draws reduced into the requested range.
-/

namespace KnowBall

/-- Rust `String` / `&str`, modelled as a list of characters. -/
abbrev Str := List Char

/-- Rust `str::to_lowercase`; only ASCII inputs are exercised here, where
Unicode lowercasing agrees with ASCII lowercasing. -/
def lowerStr (s : Str) : Str := s.map Char.toLower

/-- Rust `str::to_ascii_uppercase`. -/
def upperStr (s : Str) : Str := s.map Char.toUpper

/-- Rust `str::trim` (leading and trailing whitespace removed). -/
def trimStr (s : Str) : Str :=
  ((s.dropWhile Char.isWhitespace).reverse.dropWhile Char.isWhitespace).reverse

/-- Helper for `splitOnChar`: the accumulator holds the current chunk reversed. -/
def splitOnCharAux (sep : Char) : Str → Str → List Str
  | [], acc => [acc.reverse]
  | c :: cs, acc =>
    if c = sep then acc.reverse :: splitOnCharAux sep cs []
    else splitOnCharAux sep cs (c :: acc)

/-- Rust `str::split(sep)` collected to a vector, e.g.
`"a_b".split('_') = ["a", "b"]` and `"".split('_') = [""]`. -/
def splitOnChar (sep : Char) (s : Str) : List Str := splitOnCharAux sep s []

/-- src/questions.rs `TEAMS`: all 32 NFL team abbreviations. -/
def TEAMS : List Str :=
  ["BUF", "MIA", "NE", "NYJ", "BAL", "CIN", "CLE", "PIT", "HOU", "IND",
   "JAX", "TEN", "DEN", "KC", "LV", "LAC", "DAL", "NYG", "PHI", "WAS",
   "CHI", "DET", "GB", "MIN", "ATL", "CAR", "NO", "TB", "ARI", "LAR",
   "SF", "SEA"].map String.toList

/-- src/questions.rs `QuestionKind`: the closed enumeration of question types. -/
inductive QuestionKind where
  | RecYdsTeamYearRange
  | RushYdsTeamYearRange
  | PassYdsTeamSinceStart
  | Last10PassersTeam
  | Last10RushersTeam
  | Last10ReceiversTeam
  | Last10IntThrowersTeam
  | Last10TdPassersTeam
  | Last10NonQbPassersTeam
  | Last10MidWrsTeam
  | Last10MidRbsTeam
  | Top10FumblesLostYearRange
  | Top10RushTdYearRange
  | Top10RecTdYearRange
  | Top10PassTdYearRange
  | Top10IntThrownYearRange
  | Top10RushingQbYearRange
  | Top10ReceivingTeYearRange
  | Top10ReceivingRbYearRange
  | Top10RushingWrYearRange
  | Top10ReceptionsYearRange
  | Top10CompPercYear
  | Top10PassYdsYear
  | Top10YpcYear
  | Top10YprYear
  | Top10RushersYear
  | Top10ReceiversYear
  | Top10RushingQbYear
  | Top10ReceivingTeYear
deriving DecidableEq

/-- src/questions.rs `QuestionMeta`: description plus kind. -/
structure QuestionMeta where
  description : String
  kind : QuestionKind

/-- src/questions.rs `ParsedRequest`: question kind and optional team filter. -/
structure ParsedRequest where
  kind : QuestionKind
  team : Option Str
deriving DecidableEq

/-- src/questions.rs `build_registry`: the registry is a `HashMap`; it is
modelled as an association list in insertion order.  Its keys are pairwise
distinct (even case-insensitively), so every lookup done by `parse_query`
matches at most one entry and the hash-map iteration order is irrelevant. -/
def build_registry : List (Str × QuestionMeta) :=
  [("recyds_yearrange_TEAM", "Top 10 receiving yards for a team in a year range",
      QuestionKind.RecYdsTeamYearRange),
   ("rushyds_yearrange_TEAM", "Top 10 rushing yards for a team in a year range",
      QuestionKind.RushYdsTeamYearRange),
   ("passyds_TEAM", "Top 10 passing yards for a team since the start year",
      QuestionKind.PassYdsTeamSinceStart),
   ("last10passers_TEAM", "Last 10 players to attempt at least 10 passes for a team",
      QuestionKind.Last10PassersTeam),
   ("last10rushers_TEAM", "Last 10 non-QBs to attempt at least 30 rushes for a team",
      QuestionKind.Last10RushersTeam),
   ("last10receivers_TEAM", "Last 10 players to record at least 20 receptions for a team",
      QuestionKind.Last10ReceiversTeam),
   ("last10intthrowers_TEAM", "Last 10 players to throw an interception for a team",
      QuestionKind.Last10IntThrowersTeam),
   ("last10tdpassers_TEAM", "Last 10 players to throw a passing TD for a team",
      QuestionKind.Last10TdPassersTeam),
   ("last10nonqbp_TEAM", "Last 10 non-QBs to attempt a pass for a team",
      QuestionKind.Last10NonQbPassersTeam),
   ("last10midwrs_TEAM", "Last 10 WRs (<3000 career rec yards) to score a rec TD for a team",
      QuestionKind.Last10MidWrsTeam),
   ("last10midrbs_TEAM", "Last 10 RBs (<3000 career rush yards) to score a rush TD for a team",
      QuestionKind.Last10MidRbsTeam),
   ("top10fumlost_yearrange", "Top 10 players with most fumbles lost in a year range",
      QuestionKind.Top10FumblesLostYearRange),
   ("top10rushtd_yearrange", "Top 10 players with most rushing TDs in a year range",
      QuestionKind.Top10RushTdYearRange),
   ("top10rectd_yearrange", "Top 10 players with most receiving TDs in a year range",
      QuestionKind.Top10RecTdYearRange),
   ("top10passtd_yearrange", "Top 10 players with most passing TDs in a year range",
      QuestionKind.Top10PassTdYearRange),
   ("top10intthrown_yearrange", "Top 10 players with most interceptions thrown in a year range",
      QuestionKind.Top10IntThrownYearRange),
   ("top10rushingqb_yearrange", "Top 10 QBs in rushing yards in a year range",
      QuestionKind.Top10RushingQbYearRange),
   ("top10receivingte_yearrange", "Top 10 TEs in receiving yards in a year range",
      QuestionKind.Top10ReceivingTeYearRange),
   ("top10receivingrb_yearrange", "Top 10 RBs in receiving yards in a year range",
      QuestionKind.Top10ReceivingRbYearRange),
   ("top10rushingwr_yearrange", "Top 10 WRs in rushing yards in a year range",
      QuestionKind.Top10RushingWrYearRange),
   ("top10receptions_yearrange", "Top 10 players in receptions in a year range",
      QuestionKind.Top10ReceptionsYearRange),
   ("top10compperc_year", "Top 10 QBs in completion percentage in one season",
      QuestionKind.Top10CompPercYear),
   ("top10passyds_year", "Top 10 QBs in passing yards in one season",
      QuestionKind.Top10PassYdsYear),
   ("top10ypc_year", "Top 10 rushers in yards per carry in one season",
      QuestionKind.Top10YpcYear),
   ("top10ypr_year", "Top 10 receivers in yards per reception in one season",
      QuestionKind.Top10YprYear),
   ("top10rushers_year", "Top 10 rushers in rushing yards in one season",
      QuestionKind.Top10RushersYear),
   ("top10receivers_year", "Top 10 receivers in receiving yards in one season",
      QuestionKind.Top10ReceiversYear),
   ("top10rushingqb_year", "Top 10 rushing QBs in one season",
      QuestionKind.Top10RushingQbYear),
   ("top10receivingte_year", "Top 10 TEs in receiving yards in one season",
      QuestionKind.Top10ReceivingTeYear)
  ].map (fun t => (t.1.toList, QuestionMeta.mk t.2.1 t.2.2))

/-- src/questions.rs `parse_query`: split on the underscore, recognise a
trailing team code by exact (full-string) membership in `TEAMS`, then look
the base code up case-insensitively, also with an `_team` suffix appended
when a team code was detected. -/
def parse_query (input : Str) (registry : List (Str × QuestionMeta)) :
    Option ParsedRequest :=
  let raw := trimStr input
  let parts := splitOnChar '_' raw
  match parts.getLast? with
  | none => none
  | some lastPart =>
    let lastUp := upperStr lastPart
    let team : Option Str := if TEAMS.contains lastUp then some lastUp else none
    let base : Str :=
      match team with
      | some _ => List.intercalate ['_'] parts.dropLast
      | none => raw
    let baseLower := lowerStr base
    let candidates : List Str :=
      baseLower :: (match team with
        | some _ => [baseLower ++ "_team".toList]
        | none => [])
    match registry.find? (fun kv => candidates.any (fun c => c == lowerStr kv.1)) with
    | none => none
    | some kv => some ⟨kv.2.kind, team⟩

/-- src/questions.rs `START_YEAR`. -/
def START_YEAR : ℤ := 2000

/-- src/questions.rs `END_YEAR`. -/
def END_YEAR : ℤ := 2024

/-- `rand`'s `gen_range(lo..hi)` (half-open): some value in `[lo, hi)`.
The generator state is modelled by an arbitrary integer draw reduced into
the range. -/
def gen_range_ho (lo hi d : ℤ) : ℤ := lo + d % (hi - lo)

/-- `rand`'s `gen_range(lo..=hi)` (inclusive): some value in `[lo, hi]`. -/
def gen_range_incl (lo hi d : ℤ) : ℤ := lo + d % (hi - lo + 1)

/-- src/questions.rs `random_year_range`: `start` drawn from
`START_YEAR..END_YEAR` (half-open), `end` drawn from `(start+1)..=END_YEAR`
(inclusive). -/
def random_year_range (d1 d2 : ℤ) : ℤ × ℤ :=
  let s := gen_range_ho START_YEAR END_YEAR d1
  let e := gen_range_incl (s + 1) END_YEAR d2
  (s, e)

/-! ### Scoring (src/sql_runner.rs `calculate_point_values`)

The stat strings flow through Rust's `str::parse::<f64>`; the parse is
modelled by an abstract `parse : Str → Option ℚ` parameter (theorems
quantify over it), and concrete inputs use `decParse`, an exact decimal
reading of the plain decimal literals exercised here. -/

/-- The value of one decimal digit character, if it is one. -/
def digitVal (c : Char) : Option ℕ :=
  if '0' ≤ c ∧ c ≤ '9' then some (c.toNat - '0'.toNat) else none

/-- Reads a non-empty all-digit chunk as a natural number. -/
def readDigitsAux : Str → ℕ → Option ℕ
  | [], acc => some acc
  | c :: cs, acc =>
    match digitVal c with
    | some d => readDigitsAux cs (acc * 10 + d)
    | none => none

/-- Reads a non-empty all-digit chunk as a natural number. -/
def readDigits (s : Str) : Option ℕ :=
  if s = [] then none else readDigitsAux s 0

/-- Unsigned part of `decParse`: `123` or `123.45`. -/
def decParseUnsigned (s : Str) : Option ℚ :=
  match splitOnChar '.' s with
  | [intPart] => (readDigits intPart).map (fun n => (n : ℚ))
  | [intPart, fracPart] =>
    match readDigits intPart, readDigits fracPart with
    | some i, some f => some ((i : ℚ) + (f : ℚ) / (10 : ℚ) ^ fracPart.length)
    | _, _ => none
  | _ => none

/-- Modelled from the spec: Rust's standard `str::parse::<f64>` ("Extract
the terminal field of every row as a real number"), restricted to the
plain decimal literals (optional minus sign, digits, optional fractional
part) that the database renders and that the concrete inputs below use;
the parsed value is represented exactly as a rational. -/
def decParse : Str → Option ℚ
  | '-' :: rest => (decParseUnsigned rest).map (fun q => -q)
  | s => decParseUnsigned s

/-- src/sql_runner.rs: `let stat_col_idx = rows[0].len() - 1;`
(`usize` subtraction; the all-rows-empty corner where it would underflow
leaves the stat list empty either way). -/
def statColIdx (rows : List (List Str)) : ℕ := (rows.headD []).length - 1

/-- src/sql_runner.rs: the `filter_map` that parses
`row[stat_col_idx]` for every row long enough to have that column. -/
def statsOf (parse : Str → Option ℚ) (rows : List (List Str)) : List ℚ :=
  rows.filterMap (fun row =>
    if statColIdx rows < row.length then parse (row.getD (statColIdx rows) [])
    else none)

/-- src/sql_runner.rs: `stats.iter().all(|&s| (s - stats[0]).abs() < 0.01)`. -/
def allSame (stats : List ℚ) : Bool :=
  stats.all (fun s => |s - stats.headD 0| < 1 / 100)

/-- src/sql_runner.rs: `stats.iter().cloned().fold(f64::NEG_INFINITY, f64::max)`;
for the non-empty lists on which it is used, folding from negative
infinity equals folding from the first element. -/
def maxStat (stats : List ℚ) : ℚ := stats.foldl max (stats.headD 0)

/-- src/sql_runner.rs: `stats.iter().cloned().fold(f64::INFINITY, f64::min)`. -/
def minStat (stats : List ℚ) : ℚ := stats.foldl min (stats.headD 0)

/-- src/sql_runner.rs: the inverse weights
`stats.iter().map(|&s| max_stat - s + min_stat)`, guarded by the
(`¬ allSame`-unreachable) equal-weight fallback. -/
def inversesOf (stats : List ℚ) : List ℚ :=
  if |maxStat stats - minStat stats| < 1 / 100 then
    List.replicate stats.length 1
  else
    stats.map (fun s => maxStat stats - s + minStat stats)

/-- Rust `f64::round`: round half away from zero. -/
def rustRound (x : ℚ) : ℤ :=
  if 0 ≤ x then ⌊x + 1 / 2⌋ else -⌊-x + 1 / 2⌋

/-- Rust `as u32` on an integral `f64`: saturating cast (negative values
to 0, values above `u32::MAX` to `u32::MAX`). -/
def f64AsU32 (z : ℤ) : ℕ := min z.toNat (2 ^ 32 - 1)

/-- `((inv / sum) * 1000.0).round() as u32` for one inverse weight. -/
def rustRoundAsU32 (x : ℚ) : ℕ := f64AsU32 (rustRound x)

/-- src/sql_runner.rs: the normalisation
`inverses.iter().map(|&inv| ((inv / sum) * 1000.0).round() as u32)`.
(In ℚ, division by a zero sum yields 0; every theorem below about this
branch carries hypotheses making the sum positive, matching `f64`.) -/
def normalizePoints (inverses : List ℚ) : List ℕ :=
  inverses.map (fun inv => rustRoundAsU32 (inv / inverses.sum * 1000))

/-- src/sql_runner.rs `calculate_point_values` (the `_column_names`
argument is unused in the source and dropped here). -/
def calculate_point_values (parse : Str → Option ℚ) (rows : List (List Str)) :
    List ℕ :=
  if rows.isEmpty then List.replicate rows.length 100
  else if (statsOf parse rows).isEmpty || (statsOf parse rows).length != rows.length then
    List.replicate rows.length (1000 / rows.length)
  else if allSame (statsOf parse rows) then
    List.replicate rows.length (1000 / rows.length)
  else
    normalizePoints (inversesOf (statsOf parse rows))

/-! ### Interactive trivia loop (src/sql_runner.rs `run_trivia`) -/

/-- The session-scoped mutable state of one `run_trivia` round. -/
structure GameState where
  guessed : List Bool
  correct : ℕ
  strikes : ℕ
  score : ℕ
deriving DecidableEq

/-- Terminal states of a round (spec §4.5), plus exhaustion of the
modelled input stream (the real loop blocks for further input there). -/
inductive Outcome where
  | won
  | lost
  | revealed
  | outOfInput
deriving DecidableEq

/-- Whether `text` begins with `pat` (building block of `strContains`). -/
def startsWithStr : Str → Str → Bool
  | [], _ => true
  | _ :: _, [] => false
  | p :: ps, t :: ts => p == t && startsWithStr ps ts

/-- Rust `str::contains(pat)`: contiguous-substring test on `text`. -/
def strContains (pat : Str) : Str → Bool
  | [] => pat.isEmpty
  | c :: rest => startsWithStr pat (c :: rest) || strContains pat rest

/-- src/sql_runner.rs lines 130 and 150: the bidirectional containment
test `ans_lc.contains(&guess_lc) || guess_lc.contains(&ans_lc)`. -/
def matchesGuess (ansLc guessLc : Str) : Bool :=
  strContains guessLc ansLc || strContains ansLc guessLc

/-- src/sql_runner.rs: `row[answer_col]` with `answer_col = 0`. -/
def answerOf (row : List Str) : Str := row.headD []

/-- src/sql_runner.rs lines 126-136: the already-guessed scan — some row
matching the guess is already marked guessed. -/
def alreadyGot (rows : List (List Str)) (guessed : List Bool) (guessLc : Str) :
    Bool :=
  (rows.zip guessed).any
    (fun rg => matchesGuess (lowerStr (answerOf rg.1)) guessLc && rg.2)

/-- A row/guessed pair is an eligible match: not yet guessed, and the
guess matches its answer field. -/
def matchPred (guessLc : Str) (rg : List Str × Bool) : Bool :=
  !rg.2 && matchesGuess (lowerStr (answerOf rg.1)) guessLc

/-- src/sql_runner.rs lines 143-154: index of the first not-yet-guessed
row, in original row order, matching the guess. -/
def findMatchIdx (guessLc : Str) : List (List Str × Bool) → Option ℕ
  | [] => none
  | rg :: rest =>
    if matchPred guessLc rg then some 0
    else (findMatchIdx guessLc rest).map (fun i => i + 1)

/-- src/sql_runner.rs line 120: `guess.eq_ignore_ascii_case("reveal")`
applied to the trimmed guess. -/
def isRevealLine (g : Str) : Bool := lowerStr g == "reveal".toList

/-- One iteration body of the `run_trivia` guess loop on one input line:
the updated state, and whether the loop breaks (explicit reveal). -/
def processLine (rows : List (List Str)) (pts : List ℕ) (st : GameState)
    (line : Str) : GameState × Bool :=
  let g := trimStr line
  if g.isEmpty then (st, false)
  else if isRevealLine g then (st, true)
  else
    let guessLc := lowerStr g
    if alreadyGot rows st.guessed guessLc then (st, false)
    else
      match findMatchIdx guessLc (rows.zip st.guessed) with
      | some i =>
        ({ guessed := st.guessed.set i true,
           correct := st.correct + 1,
           strikes := st.strikes,
           score := st.score + pts.getD i 0 }, false)
      | none => ({ st with strikes := st.strikes + 1 }, false)

/-- src/sql_runner.rs lines 73-167: the guess loop, driven by a list of
input lines.  The loop-top check `correct == total || strikes >= 3`
decides Won/Lost, an explicit reveal breaks to Revealed, and exhausting
the modelled input yields `outOfInput` (the real loop would block). -/
def runTrivia (rows : List (List Str)) (pts : List ℕ) :
    GameState → List Str → GameState × Outcome
  | st, lines =>
    if st.correct = rows.length then (st, Outcome.won)
    else if 3 ≤ st.strikes then (st, Outcome.lost)
    else
      match lines with
      | [] => (st, Outcome.outOfInput)
      | l :: ls =>
        match processLine rows pts st l with
        | (st2, true) => (st2, Outcome.revealed)
        | (st2, false) => runTrivia rows pts st2 ls

/-- src/sql_runner.rs lines 57-60: the initial state of a round. -/
def initState (total : ℕ) : GameState :=
  { guessed := List.replicate total false, correct := 0, strikes := 0, score := 0 }

/-! ### Concrete inputs used by counterexamples and witnesses -/

/-- Converts string-literal rows into the character-list representation. -/
def strRows (l : List (List String)) : List (List Str) :=
  l.map (fun r => r.map String.toList)

/-- Six rows whose terminal stats are all equal. -/
def c1Rows : List (List Str) :=
  strRows [["a", "1"], ["b", "1"], ["c", "1"], ["d", "1"], ["e", "1"], ["f", "1"]]

/-- Two rows with distinct terminal stats 100 and 100.2. -/
def c2Rows : List (List Str) := strRows [["a", "100"], ["b", "100.2"]]

/-- Two rows with terminal stats 0 and 5. -/
def c3Rows : List (List Str) := strRows [["a", "0"], ["b", "5"]]

/-- Two rows with terminal stats 2 and 1 (all positive, not all equal). -/
def w1Rows : List (List Str) := strRows [["a", "2"], ["b", "1"]]

/-- Three rows whose terminal stats are all equal. -/
def w4Rows : List (List Str) := strRows [["a", "1"], ["b", "1"], ["c", "1"]]

/-- The spec §8 guess-matching example board. -/
def gRows : List (List Str) :=
  strRows [["Tom Brady", "14643"], ["Mike Glennon", "4100"]]

/-- Point values used with `gRows`. -/
def gPts : List ℕ := [400, 600]

/-- A one-row board whose answer contains the word "reveal". -/
def c8Rows : List (List Str) := strRows [["Reveal Johnson", "1"]]

/-- A state in which the single `c8Rows` row is already guessed. -/
def c8St : GameState := ⟨[true], 1, 0, 500⟩

/-- Point values used with `c8Rows`. -/
def c8Pts : List ℕ := [1000]

/-- A state in which the first `gRows` row is already guessed. -/
def w8St : GameState := ⟨[true, false], 1, 0, 400⟩

/-- Three input lines matching no `gRows` answer. -/
def c6Lines : List Str := ["zzz", "zzz", "zzz"].map String.toList

/-! ### Theorems -/

section ClaimTheorems

/- Core marks the arithmetic of `Rat` `@[irreducible]`, which blocks
elaborator-side evaluation in `decide`; restore the default so concrete
scoring runs evaluate. -/
attribute [local semireducible] Rat.add Rat.sub Rat.mul Rat.inv

/-! #### Helper lemmas about the scoring pipeline -/

lemma le_foldl_max (l : List ℚ) (a : ℚ) : a ≤ l.foldl max a := by
  induction l generalizing a with
  | nil => exact le_refl a
  | cons b t ih => exact le_trans (le_max_left a b) (ih (max a b))

lemma mem_le_foldl_max (l : List ℚ) : ∀ (a x : ℚ), x ∈ l → x ≤ l.foldl max a := by
  induction l with
  | nil => intro a x hx; cases hx
  | cons b t ih =>
    intro a x hx
    rcases List.mem_cons.mp hx with h | h
    · subst h
      exact le_trans (le_max_right a x) (le_foldl_max t (max a x))
    · exact ih (max a b) x h

lemma foldl_max_eq_or_mem (l : List ℚ) : ∀ a : ℚ, l.foldl max a = a ∨ l.foldl max a ∈ l := by
  induction l with
  | nil => intro a; exact Or.inl rfl
  | cons b t ih =>
    intro a
    rcases ih (max a b) with h | h
    · rcases max_choice a b with hm | hm
      · exact Or.inl (by rw [List.foldl_cons, h, hm])
      · exact Or.inr (by rw [List.foldl_cons, h, hm]; exact List.mem_cons_self b t)
    · exact Or.inr (List.mem_cons_of_mem b h)

lemma foldl_min_le (l : List ℚ) (a : ℚ) : l.foldl min a ≤ a := by
  induction l generalizing a with
  | nil => exact le_refl a
  | cons b t ih => exact le_trans (ih (min a b)) (min_le_left a b)

lemma foldl_min_le_mem (l : List ℚ) : ∀ (a x : ℚ), x ∈ l → l.foldl min a ≤ x := by
  induction l with
  | nil => intro a x hx; cases hx
  | cons b t ih =>
    intro a x hx
    rcases List.mem_cons.mp hx with h | h
    · subst h
      exact le_trans (foldl_min_le t (min a x)) (min_le_right a x)
    · exact ih (min a b) x h

lemma foldl_min_eq_or_mem (l : List ℚ) : ∀ a : ℚ, l.foldl min a = a ∨ l.foldl min a ∈ l := by
  induction l with
  | nil => intro a; exact Or.inl rfl
  | cons b t ih =>
    intro a
    rcases ih (min a b) with h | h
    · rcases min_choice a b with hm | hm
      · exact Or.inl (by rw [List.foldl_cons, h, hm])
      · exact Or.inr (by rw [List.foldl_cons, h, hm]; exact List.mem_cons_self b t)
    · exact Or.inr (List.mem_cons_of_mem b h)

lemma maxStat_ge (stats : List ℚ) (s : ℚ) (hs : s ∈ stats) : s ≤ maxStat stats :=
  mem_le_foldl_max stats _ s hs

lemma minStat_le (stats : List ℚ) (s : ℚ) (hs : s ∈ stats) : minStat stats ≤ s :=
  foldl_min_le_mem stats _ s hs

lemma maxStat_mem (stats : List ℚ) (h : stats ≠ []) : maxStat stats ∈ stats := by
  obtain ⟨s0, t, rfl⟩ := List.exists_cons_of_ne_nil h
  rcases foldl_max_eq_or_mem (s0 :: t) ((s0 :: t).headD 0) with he | hm
  · rw [maxStat, he]; exact List.mem_cons_self s0 t
  · exact hm

lemma minStat_mem (stats : List ℚ) (h : stats ≠ []) : minStat stats ∈ stats := by
  obtain ⟨s0, t, rfl⟩ := List.exists_cons_of_ne_nil h
  rcases foldl_min_eq_or_mem (s0 :: t) ((s0 :: t).headD 0) with he | hm
  · rw [minStat, he]; exact List.mem_cons_self s0 t
  · exact hm

lemma allSame_ne_nil (stats : List ℚ) (h : allSame stats = false) : stats ≠ [] := by
  intro he; subst he; simp [allSame] at h

lemma gap_of_not_allSame (stats : List ℚ) (h : allSame stats = false) :
    1 / 100 ≤ maxStat stats - minStat stats := by
  have hne : stats ≠ [] := allSame_ne_nil stats h
  rw [allSame, List.all_eq_false] at h
  obtain ⟨s, hs, hsp⟩ := h
  have hsp2 : ¬ |s - stats.headD 0| < 1 / 100 := fun hc => hsp (decide_eq_true hc)
  have h0 : stats.headD 0 ∈ stats := by
    obtain ⟨s0, t, rfl⟩ := List.exists_cons_of_ne_nil hne
    exact List.mem_cons_self s0 t
  have h1 : s ≤ maxStat stats := maxStat_ge stats s hs
  have h2 : minStat stats ≤ s := minStat_le stats s hs
  have h3 : stats.headD 0 ≤ maxStat stats := maxStat_ge stats _ h0
  have h4 : minStat stats ≤ stats.headD 0 := minStat_le stats _ h0
  rcases abs_cases (s - stats.headD 0) with ⟨he, -⟩ | ⟨he, -⟩ <;>
    [skip; skip] <;> push_neg at hsp2 <;> rw [he] at hsp2 <;> linarith

lemma inversesOf_eq_map (stats : List ℚ) (h : allSame stats = false) :
    inversesOf stats = stats.map (fun s => maxStat stats - s + minStat stats) := by
  have hgap := gap_of_not_allSame stats h
  have hcond : ¬ |maxStat stats - minStat stats| < 1 / 100 := by
    rw [abs_of_nonneg (by linarith)]; linarith
  rw [inversesOf, if_neg hcond]

lemma length_inversesOf (stats : List ℚ) : (inversesOf stats).length = stats.length := by
  rw [inversesOf]; split <;> simp

lemma inverses_pos (stats : List ℚ) (hne : stats ≠ [])
    (hpos : ∀ s ∈ stats, 0 < s) : ∀ w ∈ inversesOf stats, 0 < w := by
  intro w hw
  rw [inversesOf] at hw
  by_cases hc : |maxStat stats - minStat stats| < 1 / 100
  · rw [if_pos hc] at hw
    have := List.eq_of_mem_replicate hw
    subst this; norm_num
  · rw [if_neg hc] at hw
    obtain ⟨s, hs, rfl⟩ := List.mem_map.mp hw
    have h1 : s ≤ maxStat stats := maxStat_ge stats s hs
    have h2 : 0 < minStat stats := hpos _ (minStat_mem stats hne)
    linarith

lemma sum_map_div_mul (l : List ℚ) (S c : ℚ) :
    (l.map (fun w => w / S * c)).sum = l.sum / S * c := by
  induction l with
  | nil => simp
  | cons x t ih => simp [ih, add_div, add_mul]

lemma rustRoundAsU32_eq_round (x : ℚ) (h0 : 0 ≤ x) (h1 : x ≤ 1000) :
    ((rustRoundAsU32 x : ℤ)) = round x := by
  have hr : rustRound x = round x := by rw [rustRound, if_pos h0, round_eq]
  have hr0 : 0 ≤ round x := by
    rw [round_eq]; exact Int.floor_nonneg.mpr (by linarith)
  have hr1 : round x ≤ 1000 := by
    have h2 : round x ≤ round ((1000 : ℤ) : ℚ) := by
      rw [round_eq, round_eq]
      exact Int.floor_le_floor (by push_cast; linarith)
    rwa [round_intCast] at h2
  rw [rustRoundAsU32, f64AsU32, hr]
  have h3 : (round x).toNat ≤ 2 ^ 32 - 1 := by
    have := Int.toNat_le_toNat hr1
    simp only [Int.toNat_ofNat] at this
    omega
  rw [min_eq_left h3, Int.toNat_of_nonneg hr0]

lemma rustRound_mono {x y : ℚ} (h : x ≤ y) : rustRound x ≤ rustRound y := by
  rw [rustRound, rustRound]
  by_cases hx : 0 ≤ x
  · rw [if_pos hx, if_pos (le_trans hx h)]
    exact Int.floor_le_floor (by linarith)
  · rw [if_neg hx]
    push_neg at hx
    by_cases hy : 0 ≤ y
    · rw [if_pos hy]
      have h1 : (0 : ℤ) ≤ ⌊y + 1 / 2⌋ := Int.floor_nonneg.mpr (by linarith)
      have h2 : (0 : ℤ) ≤ ⌊-x + 1 / 2⌋ := Int.floor_nonneg.mpr (by linarith)
      omega
    · rw [if_neg hy]
      have h3 : ⌊-y + 1 / 2⌋ ≤ ⌊-x + 1 / 2⌋ := Int.floor_le_floor (by linarith)
      omega

lemma rustRoundAsU32_mono {x y : ℚ} (h : x ≤ y) :
    rustRoundAsU32 x ≤ rustRoundAsU32 y := by
  rw [rustRoundAsU32, rustRoundAsU32, f64AsU32, f64AsU32]
  exact min_le_min (Int.toNat_le_toNat (rustRound_mono h)) (le_refl _)

lemma cast_sum_map_rustRoundAsU32 (l : List ℚ) (h : ∀ x ∈ l, 0 ≤ x ∧ x ≤ 1000) :
    ((l.map rustRoundAsU32).sum : ℤ) = (l.map (fun x => round x)).sum := by
  induction l with
  | nil => simp
  | cons x t ih =>
    simp only [List.map_cons, List.sum_cons, Nat.cast_add]
    rw [rustRoundAsU32_eq_round x (h x (List.mem_cons_self x t)).1
        (h x (List.mem_cons_self x t)).2,
      ih (fun y hy => h y (List.mem_cons_of_mem x hy))]

lemma abs_sum_round_sub (l : List ℚ) :
    |(((l.map (fun x => round x)).sum : ℤ) : ℚ) - l.sum| ≤ (l.length : ℚ) / 2 := by
  induction l with
  | nil => simp
  | cons x t ih =>
    simp only [List.map_cons, List.sum_cons, List.length_cons]
    have h1 : |((round x : ℤ) : ℚ) - x| ≤ 1 / 2 := by
      rw [abs_sub_comm]; exact abs_sub_round x
    have h2 : ((((round x : ℤ) + (t.map (fun x => round x)).sum : ℤ) : ℚ)) -
        (x + t.sum) =
        (((round x : ℤ) : ℚ) - x) +
          ((((t.map (fun x => round x)).sum : ℤ) : ℚ) - t.sum) := by
      push_cast; ring
    rw [h2]
    calc |(((round x : ℤ) : ℚ) - x) +
            ((((t.map (fun x => round x)).sum : ℤ) : ℚ) - t.sum)|
        ≤ |((round x : ℤ) : ℚ) - x| +
            |(((t.map (fun x => round x)).sum : ℤ) : ℚ) - t.sum| := abs_add _ _
      _ ≤ 1 / 2 + (t.length : ℚ) / 2 := add_le_add h1 ih
      _ = ((t.length : ℚ) + 1) / 2 := by ring
      _ = (((t.length + 1 : ℕ)) : ℚ) / 2 := by push_cast; ring

lemma equalSplit_bound (n : ℕ) (hn : 0 < n) :
    (List.replicate n (1000 / n)).length = n ∧
    |((List.replicate n (1000 / n)).sum : ℤ) - 1000| < n := by
  refine ⟨by simp, ?_⟩
  have hsum : (List.replicate n (1000 / n)).sum = n * (1000 / n) := by
    simp [List.sum_replicate, smul_eq_mul]
  have hd := Nat.div_add_mod 1000 n
  have hm : 1000 % n < n := Nat.mod_lt _ hn
  rw [hsum, abs_sub_lt_iff]
  omega

lemma normalizePoints_bound (stats : List ℚ) (hne : stats ≠ [])
    (hpos : ∀ s ∈ stats, 0 < s) :
    (normalizePoints (inversesOf stats)).length = stats.length ∧
    |((normalizePoints (inversesOf stats)).sum : ℤ) - 1000| < stats.length := by
  have htot : 0 < stats.length := List.length_pos.mpr hne
  have hwpos : ∀ w ∈ inversesOf stats, 0 < w := inverses_pos stats hne hpos
  have hlen : (inversesOf stats).length = stats.length := length_inversesOf stats
  have hinne : inversesOf stats ≠ [] :=
    List.length_pos.mp (by rw [hlen]; exact htot)
  have hSpos : 0 < (inversesOf stats).sum := List.sum_pos _ hwpos hinne
  have hw_le_S : ∀ w ∈ inversesOf stats, w ≤ (inversesOf stats).sum :=
    fun w hw => List.single_le_sum (fun x hx => le_of_lt (hwpos x hx)) w hw
  have hmapmap : normalizePoints (inversesOf stats) =
      ((inversesOf stats).map
        (fun w => w / (inversesOf stats).sum * 1000)).map rustRoundAsU32 := by
    rw [normalizePoints, List.map_map]; rfl
  have hshb : ∀ x ∈ (inversesOf stats).map
      (fun w => w / (inversesOf stats).sum * 1000), 0 ≤ x ∧ x ≤ 1000 := by
    intro x hx
    obtain ⟨w, hw, rfl⟩ := List.mem_map.mp hx
    have hwp := hwpos w hw
    constructor
    · positivity
    · have h1 : w / (inversesOf stats).sum ≤ 1 :=
        (div_le_one hSpos).mpr (hw_le_S w hw)
      nlinarith
  have hsum : ((inversesOf stats).map
      (fun w => w / (inversesOf stats).sum * 1000)).sum = 1000 := by
    rw [sum_map_div_mul, div_self (ne_of_gt hSpos), one_mul]
  have hcast : ((normalizePoints (inversesOf stats)).sum : ℤ) =
      (((inversesOf stats).map
        (fun w => w / (inversesOf stats).sum * 1000)).map
          (fun x => round x)).sum := by
    rw [hmapmap]
    exact cast_sum_map_rustRoundAsU32 _ hshb
  have habs := abs_sum_round_sub
    ((inversesOf stats).map (fun w => w / (inversesOf stats).sum * 1000))
  rw [hsum] at habs
  simp only [List.length_map, hlen] at habs
  constructor
  · rw [hmapmap]; simp [hlen]
  · rw [hcast]
    have h3 : ((stats.length : ℚ)) / 2 < (stats.length : ℚ) :=
      half_lt_self (by exact_mod_cast htot)
    have h4 : |((((inversesOf stats).map
        (fun w => w / (inversesOf stats).sum * 1000)).map
          (fun x => round x)).sum : ℚ) - 1000| < (stats.length : ℚ) :=
      lt_of_le_of_lt habs h3
    exact_mod_cast h4

lemma getD_map_of_lt {α β : Type} (f : α → β) (l : List α) (d : α) (d2 : β) :
    ∀ i : ℕ, i < l.length → (l.map f).getD i d2 = f (l.getD i d) := by
  induction l with
  | nil => intro i hi; simp at hi
  | cons x t ih =>
    intro i hi
    cases i with
    | zero => simp
    | succ n =>
      simp only [List.map_cons, List.getD_cons_succ]
      exact ih n (by simpa using hi)

lemma filterMap_length_lt {α β : Type} (f : α → Option β) :
    ∀ (l : List α) (x : α), x ∈ l → f x = none →
      (l.filterMap f).length < l.length := by
  intro l
  induction l with
  | nil => intro x hx; cases hx
  | cons a t ih =>
    intro x hx hfx
    rcases List.mem_cons.mp hx with h | h
    · subst h
      simp only [List.filterMap_cons, hfx, List.length_cons]
      exact Nat.lt_succ_of_le (List.length_filterMap_le f t)
    · cases hfa : f a with
      | none =>
        simp only [List.filterMap_cons, hfa, List.length_cons]
        exact Nat.lt_succ_of_lt (ih x h hfx)
      | some y =>
        simp only [List.filterMap_cons, hfa, List.length_cons]
        exact Nat.succ_lt_succ (ih x h hfx)

lemma calc_on_inverse_branch (parse : Str → Option ℚ) (rows : List (List Str))
    (hne : rows ≠ [])
    (hlen : (statsOf parse rows).length = rows.length)
    (hns : allSame (statsOf parse rows) = false) :
    calculate_point_values parse rows =
      normalizePoints (inversesOf (statsOf parse rows)) := by
  have h1 : rows.isEmpty = false := by simpa [List.isEmpty_iff] using hne
  have h2 : (statsOf parse rows).isEmpty = false := by
    simpa [List.isEmpty_iff] using allSame_ne_nil _ hns
  have h3 : ((statsOf parse rows).length != rows.length) = false := by
    rw [hlen]; simp
  rw [calculate_point_values, h1, if_neg Bool.false_ne_true, h2, h3, hns]
  simp

/-- Claim C1 (amended): for every non-empty row set, the scoring function
returns exactly one unsigned-integer point value per row; and provided
every successfully parsed terminal value is strictly positive, the sum of
the point values differs from 1000 by strictly less than the row count.
(The claimed `±2` bound fails already on the `1000 / rowCount` fallback,
e.g. six equal rows sum to 996; with positive stats, the deficit on the
fallback path is `1000 mod rowCount` and the rounding drift on the
inverse-weighting path is at most half the row count.) -/
theorem scorePoints_sum_bound (parse : Str → Option ℚ) (rows : List (List Str))
    (hne : rows ≠ []) (hpos : ∀ s ∈ statsOf parse rows, 0 < s) :
    (calculate_point_values parse rows).length = rows.length ∧
    |((calculate_point_values parse rows).sum : ℤ) - 1000| < rows.length := by
  have htot : 0 < rows.length := List.length_pos.mpr hne
  have h1 : rows.isEmpty = false := by simpa [List.isEmpty_iff] using hne
  rw [calculate_point_values, h1, if_neg Bool.false_ne_true]
  by_cases hb : ((statsOf parse rows).isEmpty ||
      (statsOf parse rows).length != rows.length) = true
  · rw [if_pos hb]; exact equalSplit_bound rows.length htot
  · rw [if_neg hb]
    have hb2 : (statsOf parse rows).length = rows.length := by
      simp only [Bool.or_eq_true, List.isEmpty_iff, bne_iff_ne, ne_eq,
        not_or, not_not] at hb
      exact hb.2
    by_cases ha : allSame (statsOf parse rows) = true
    · rw [if_pos ha]; exact equalSplit_bound rows.length htot
    · rw [if_neg ha]
      have hns : allSame (statsOf parse rows) = false := Bool.eq_false_iff.mpr ha
      have hsne : statsOf parse rows ≠ [] := allSame_ne_nil _ hns
      have hmain := normalizePoints_bound (statsOf parse rows) hsne hpos
      rwa [hb2] at hmain

/-- Witness for `scorePoints_sum_bound` at two rows with stats 2 and 1. -/
theorem scorePoints_sum_bound_witness :
    (calculate_point_values decParse w1Rows).length = w1Rows.length ∧
    |((calculate_point_values decParse w1Rows).sum : ℤ) - 1000| < w1Rows.length :=
  scorePoints_sum_bound decParse w1Rows (by decide) (by decide)

/-- Claim C3 (amended): on the inverse-weighting branch every inverse
weight `max - value + min` is at least the minimum parsed value, so it is
strictly positive provided all parsed terminal values are strictly
positive; with a zero or negative minimum the guarantee fails (see the
counterexample, where the maximum-stat row gets inverse weight 0). -/
theorem inverse_weight_pos (parse : Str → Option ℚ) (rows : List (List Str))
    (hne : statsOf parse rows ≠ [])
    (hpos : ∀ s ∈ statsOf parse rows, 0 < s) :
    ∀ w ∈ inversesOf (statsOf parse rows), 0 < w :=
  inverses_pos (statsOf parse rows) hne hpos

/-- Witness for `inverse_weight_pos` at parsed stats `[2, 1]`. -/
theorem inverse_weight_pos_witness :
    0 < (inversesOf (statsOf decParse w1Rows)).getD 0 0 :=
  inverse_weight_pos decParse w1Rows (by decide) (by decide) _ (by decide)

/-- Claim C2 (amended): on the inverse-weighting branch (all terminal
fields parsed, not all equal within tolerance), and provided all parsed
values are strictly positive, a row with a smaller terminal value
receives a point value at least as large as a row with a larger terminal
value, and a strictly larger inverse weight; strictness of the rounded
point values fails (see the counterexample, where stats 100 and 100.2
both round to 500 points). -/
theorem scorePoints_inversion_mono (parse : Str → Option ℚ)
    (rows : List (List Str)) (i j : ℕ) (hne : rows ≠ [])
    (hlen : (statsOf parse rows).length = rows.length)
    (hns : allSame (statsOf parse rows) = false)
    (hpos : ∀ s ∈ statsOf parse rows, 0 < s)
    (hi : i < rows.length) (hj : j < rows.length)
    (hij : (statsOf parse rows).getD i 0 < (statsOf parse rows).getD j 0) :
    (calculate_point_values parse rows).getD j 0 ≤
      (calculate_point_values parse rows).getD i 0 ∧
    (inversesOf (statsOf parse rows)).getD j 0 <
      (inversesOf (statsOf parse rows)).getD i 0 := by
  have hsne : statsOf parse rows ≠ [] := allSame_ne_nil _ hns
  have hcalc := calc_on_inverse_branch parse rows hne hlen hns
  have hinv := inversesOf_eq_map (statsOf parse rows) hns
  have hi2 : i < (statsOf parse rows).length := by rw [hlen]; exact hi
  have hj2 : j < (statsOf parse rows).length := by rw [hlen]; exact hj
  have hIi : (inversesOf (statsOf parse rows)).getD i 0 =
      maxStat (statsOf parse rows) - (statsOf parse rows).getD i 0 +
        minStat (statsOf parse rows) := by
    rw [hinv]; exact getD_map_of_lt _ _ 0 0 i hi2
  have hIj : (inversesOf (statsOf parse rows)).getD j 0 =
      maxStat (statsOf parse rows) - (statsOf parse rows).getD j 0 +
        minStat (statsOf parse rows) := by
    rw [hinv]; exact getD_map_of_lt _ _ 0 0 j hj2
  have hinvlt : (inversesOf (statsOf parse rows)).getD j 0 <
      (inversesOf (statsOf parse rows)).getD i 0 := by
    rw [hIi, hIj]; linarith
  refine ⟨?_, hinvlt⟩
  have hwpos : ∀ w ∈ inversesOf (statsOf parse rows), 0 < w :=
    inverses_pos _ hsne hpos
  have hilen : (inversesOf (statsOf parse rows)).length =
      (statsOf parse rows).length := length_inversesOf _
  have hinne : inversesOf (statsOf parse rows) ≠ [] :=
    List.length_pos.mp (by rw [hilen]; exact List.length_pos.mpr hsne)
  have hSpos : 0 < (inversesOf (statsOf parse rows)).sum :=
    List.sum_pos _ hwpos hinne
  have hi3 : i < (inversesOf (statsOf parse rows)).length := by
    rw [hilen]; exact hi2
  have hj3 : j < (inversesOf (statsOf parse rows)).length := by
    rw [hilen]; exact hj2
  have hPi : (calculate_point_values parse rows).getD i 0 =
      rustRoundAsU32 ((inversesOf (statsOf parse rows)).getD i 0 /
        (inversesOf (statsOf parse rows)).sum * 1000) := by
    rw [hcalc, normalizePoints]; exact getD_map_of_lt _ _ 0 0 i hi3
  have hPj : (calculate_point_values parse rows).getD j 0 =
      rustRoundAsU32 ((inversesOf (statsOf parse rows)).getD j 0 /
        (inversesOf (statsOf parse rows)).sum * 1000) := by
    rw [hcalc, normalizePoints]; exact getD_map_of_lt _ _ 0 0 j hj3
  rw [hPi, hPj]
  apply rustRoundAsU32_mono
  have hdiv : (inversesOf (statsOf parse rows)).getD j 0 /
      (inversesOf (statsOf parse rows)).sum ≤
      (inversesOf (statsOf parse rows)).getD i 0 /
        (inversesOf (statsOf parse rows)).sum :=
    (div_le_div_iff_of_pos_right hSpos).mpr (le_of_lt hinvlt)
  exact mul_le_mul_of_nonneg_right hdiv (by norm_num)

/-- Witness for `scorePoints_inversion_mono` at two rows with stats 2 and
1: the smaller-stat row (index 1) gets at least as many points. -/
theorem scorePoints_inversion_mono_witness :
    (calculate_point_values decParse w1Rows).getD 0 0 ≤
      (calculate_point_values decParse w1Rows).getD 1 0 ∧
    (inversesOf (statsOf decParse w1Rows)).getD 0 0 <
      (inversesOf (statsOf decParse w1Rows)).getD 1 0 :=
  scorePoints_inversion_mono decParse w1Rows 1 0 (by decide) (by decide)
    (by decide) (by decide) (by decide) (by decide) (by decide)

/-- Claim C4: if any row's terminal field fails to parse, or all parsed
terminal values are equal within the strict 0.01 tolerance, every row
receives the identical `1000 / rowCount` (integer division) point value.
Stated for well-formed result sets: rows are non-empty and of uniform
arity, as the query executor produces them. -/
theorem fallback_equal_split (parse : Str → Option ℚ) (rows : List (List Str))
    (hne : rows ≠ [])
    (hcols : 0 < (rows.headD []).length)
    (hrect : ∀ row ∈ rows, row.length = (rows.headD []).length)
    (hcase : (∃ row ∈ rows, parse (row.getD (row.length - 1) []) = none) ∨
      (∀ s ∈ statsOf parse rows,
        |s - (statsOf parse rows).headD 0| < 1 / 100)) :
    calculate_point_values parse rows =
      List.replicate rows.length (1000 / rows.length) := by
  have h1 : rows.isEmpty = false := by simpa [List.isEmpty_iff] using hne
  rw [calculate_point_values, h1, if_neg Bool.false_ne_true]
  by_cases hb : ((statsOf parse rows).isEmpty ||
      (statsOf parse rows).length != rows.length) = true
  · rw [if_pos hb]
  · rw [if_neg hb]
    have hb2 : (statsOf parse rows).length = rows.length := by
      simp only [Bool.or_eq_true, List.isEmpty_iff, bne_iff_ne, ne_eq,
        not_or, not_not] at hb
      exact hb.2
    rcases hcase with ⟨row, hrow, hparse⟩ | hall
    · exfalso
      have hr : row.length = (rows.headD []).length := hrect row hrow
      have hfx : (fun r => if statColIdx rows < r.length
          then parse (r.getD (statColIdx rows) []) else none) row = none := by
        have hidx : statColIdx rows = row.length - 1 := by
          rw [statColIdx, hr]
        simp only [hidx]
        rw [if_pos (Nat.sub_lt (by omega) one_pos)]
        exact hparse
      have hlt := filterMap_length_lt
        (fun r => if statColIdx rows < r.length
          then parse (r.getD (statColIdx rows) []) else none) rows row hrow hfx
      rw [statsOf] at hb2
      omega
    · have ha : allSame (statsOf parse rows) = true := by
        rw [allSame, List.all_eq_true]
        intro s hs; exact decide_eq_true (hall s hs)
      rw [if_pos ha]

/-- Witness for `fallback_equal_split` at three rows with equal stats. -/
theorem fallback_equal_split_witness :
    calculate_point_values decParse w4Rows =
      List.replicate w4Rows.length (1000 / w4Rows.length) :=
  fallback_equal_split decParse w4Rows (by decide) (by decide) (by decide)
    (by decide)

/-- Claim C5: over the fixed 29-entry registry and 32-entry team list,
`parse_query` resolves `last10passers_PIT` to the `Last10PassersTeam` kind
with team `PIT`, rejects the invalid team code `XYZ` (and the prefix `PI`,
since team validity is exact full-string membership), resolves
`top10fumlost_yearrange` with no team, and is case-insensitive:
`LAST10PASSERS_pit` parses exactly like the all-lower-case form. -/
theorem parse_query_examples :
    build_registry.length = 29 ∧ TEAMS.length = 32 ∧
    parse_query "last10passers_PIT".toList build_registry =
      some ⟨QuestionKind.Last10PassersTeam, some "PIT".toList⟩ ∧
    parse_query "last10passers_XYZ".toList build_registry = none ∧
    parse_query "last10passers_PI".toList build_registry = none ∧
    parse_query "top10fumlost_yearrange".toList build_registry =
      some ⟨QuestionKind.Top10FumblesLostYearRange, none⟩ ∧
    parse_query "LAST10PASSERS_pit".toList build_registry =
      parse_query "last10passers_pit".toList build_registry := by
  decide

/-- Claim C9: for every pair of generator draws, `random_year_range`
returns `(s, e)` with `START_YEAR ≤ s < END_YEAR` and
`s + 1 ≤ e ≤ END_YEAR`, hence `e ≥ s + 1` and both endpoints lie in the
valid 2000–2024 range. -/
theorem random_year_range_bounds (d1 d2 : ℤ) :
    START_YEAR ≤ (random_year_range d1 d2).1 ∧
    (random_year_range d1 d2).1 < END_YEAR ∧
    (random_year_range d1 d2).1 + 1 ≤ (random_year_range d1 d2).2 ∧
    (random_year_range d1 d2).2 ≤ END_YEAR := by
  have h24 : (0 : ℤ) < END_YEAR - START_YEAR := by decide
  have hm1 : 0 ≤ d1 % (END_YEAR - START_YEAR) :=
    Int.emod_nonneg d1 (by decide)
  have hm1' : d1 % (END_YEAR - START_YEAR) < END_YEAR - START_YEAR :=
    Int.emod_lt_of_pos d1 h24
  set s := gen_range_ho START_YEAR END_YEAR d1 with hs
  have hs1 : START_YEAR ≤ s := by
    simp only [hs, gen_range_ho]; omega
  have hs2 : s < END_YEAR := by
    simp only [hs, gen_range_ho]; omega
  have hpos : (0 : ℤ) < END_YEAR - (s + 1) + 1 := by omega
  have hm2 : 0 ≤ d2 % (END_YEAR - (s + 1) + 1) :=
    Int.emod_nonneg d2 (by omega)
  have hm2' : d2 % (END_YEAR - (s + 1) + 1) < END_YEAR - (s + 1) + 1 :=
    Int.emod_lt_of_pos d2 hpos
  refine ⟨hs1, hs2, ?_, ?_⟩ <;>
    simp only [random_year_range, gen_range_incl, ← hs] <;> omega

/-- Claim C10: on the empty row set `calculate_point_values` returns the
empty vector (the `vec![100; 0]` early-return); the `1000 / rowCount`
division and the `rows[0].len() - 1` terminal-column index are never
evaluated on this path. -/
theorem scorePoints_empty (parse : Str → Option ℚ) :
    calculate_point_values parse [] = [] := by
  simp [calculate_point_values]

/-- Claim C1, counterexample: on six rows with all-equal stats every row
gets `1000 / 6 = 166` points by the equal-split fallback, so the sum is
996, which differs from 1000 by 4 — refuting the claimed `±2` bound. -/
theorem scorePoints_sum_cex :
    c1Rows ≠ [] ∧
    calculate_point_values decParse c1Rows = [166, 166, 166, 166, 166, 166] ∧
    ¬ |((calculate_point_values decParse c1Rows).sum : ℤ) - 1000| ≤ 2 := by
  decide

/-- Claim C2, counterexample: on two rows with distinct parsed stats 100
and 100.2 (inverse-weighting branch), both rows round to 500 points, so
the smaller-stat row does not receive a strictly larger point value. -/
theorem scorePoints_inversion_cex :
    (statsOf decParse c2Rows).getD 0 0 < (statsOf decParse c2Rows).getD 1 0 ∧
    allSame (statsOf decParse c2Rows) = false ∧
    calculate_point_values decParse c2Rows = [500, 500] ∧
    ¬ (calculate_point_values decParse c2Rows).getD 1 0 <
        (calculate_point_values decParse c2Rows).getD 0 0 := by
  decide

/-- Claim C3, counterexample: on parsed stats 0 and 5 (not all equal, so
the inverse-weighting branch runs) the row at the maximum stat receives
inverse weight `max - 5 + min = 0`, which is not strictly positive. -/
theorem inverse_weight_cex :
    statsOf decParse c3Rows = [0, 5] ∧
    allSame (statsOf decParse c3Rows) = false ∧
    inversesOf (statsOf decParse c3Rows) = [5, 0] ∧
    ¬ 0 < (inversesOf (statsOf decParse c3Rows)).getD 1 0 := by
  decide

/-! #### Helper lemmas about the guess loop -/

lemma getD_eq_getD {α : Type} (l : List α) :
    ∀ i : ℕ, i < l.length → ∀ d1 d2 : α, l.getD i d1 = l.getD i d2 := by
  induction l with
  | nil => intro i hi; simp at hi
  | cons x t ih =>
    intro i hi d1 d2
    cases i with
    | zero => simp
    | succ n =>
      simp only [List.getD_cons_succ]
      exact ih n (by simpa using hi) d1 d2

lemma getD_zip {α β : Type} : ∀ (l1 : List α) (l2 : List β) (i : ℕ),
    i < (l1.zip l2).length → ∀ (d1 : α) (d2 : β),
      (l1.zip l2).getD i (d1, d2) = (l1.getD i d1, l2.getD i d2) := by
  intro l1
  induction l1 with
  | nil => intro l2 i hi; simp [List.zip] at hi
  | cons x t ih =>
    intro l2 i hi d1 d2
    cases l2 with
    | nil => simp at hi
    | cons y s =>
      cases i with
      | zero => simp
      | succ n =>
        simp only [List.zip_cons_cons, List.getD_cons_succ]
        exact ih s n (by simpa using hi) d1 d2

lemma count_set_true (l : List Bool) :
    ∀ i : ℕ, i < l.length → l.getD i false = false →
      (l.set i true).count true = l.count true + 1 := by
  induction l with
  | nil => intro i hi; simp at hi
  | cons b t ih =>
    intro i hi hf
    cases i with
    | zero =>
      simp only [List.getD_cons_zero] at hf
      subst hf
      simp [List.count_cons]
    | succ n =>
      simp only [List.getD_cons_succ] at hf
      have hn : n < t.length := by simpa using hi
      cases b <;>
        simp [List.set_cons_succ, List.count_cons, ih n hn hf]

lemma startsWithStr_iff (p : Str) :
    ∀ t : Str, startsWithStr p t = true ↔ ∃ v, t = p ++ v := by
  induction p with
  | nil =>
    intro t
    simp [startsWithStr]
  | cons c cs ih =>
    intro t
    cases t with
    | nil =>
      simp [startsWithStr]
    | cons d ds =>
      simp only [startsWithStr, Bool.and_eq_true, beq_iff_eq, List.cons_append,
        List.cons.injEq, ih ds]
      constructor
      · rintro ⟨rfl, v, rfl⟩
        exact ⟨v, rfl, rfl⟩
      · rintro ⟨v, rfl, rfl⟩
        exact ⟨rfl, v, rfl⟩

lemma strContains_iff (p : Str) :
    ∀ t : Str, strContains p t = true ↔ ∃ u v, t = u ++ p ++ v := by
  intro t
  induction t with
  | nil =>
    simp only [strContains, List.isEmpty_iff]
    constructor
    · rintro rfl; exact ⟨[], [], rfl⟩
    · rintro ⟨u, v, hv⟩
      rcases List.append_eq_nil.mp hv.symm with ⟨h1, h2⟩
      exact (List.append_eq_nil.mp h1).2
  | cons c rest ih =>
    simp only [strContains, Bool.or_eq_true, startsWithStr_iff, ih]
    constructor
    · rintro (⟨v, hv⟩ | ⟨u, v, hv⟩)
      · exact ⟨[], v, by simpa using hv⟩
      · exact ⟨c :: u, v, by simp [hv]⟩
    · rintro ⟨u, v, hv⟩
      cases u with
      | nil => exact Or.inl ⟨v, by simpa using hv⟩
      | cons a u2 =>
        simp only [List.cons_append, List.cons.injEq, List.append_assoc] at hv
        exact Or.inr ⟨u2, v, by simp [hv.2]⟩

lemma findMatchIdx_some (guessLc : Str) :
    ∀ (l : List (List Str × Bool)) (i : ℕ), findMatchIdx guessLc l = some i →
      i < l.length ∧ matchPred guessLc (l.getD i ([], true)) = true ∧
      ∀ j, j < i → matchPred guessLc (l.getD j ([], true)) = false := by
  intro l
  induction l with
  | nil => intro i h; simp [findMatchIdx] at h
  | cons rg rest ih =>
    intro i h
    rw [findMatchIdx] at h
    by_cases hp : matchPred guessLc rg = true
    · rw [if_pos hp] at h
      injection h with h2
      subst h2
      exact ⟨Nat.succ_pos _, by simpa using hp,
        fun j hj => absurd hj (Nat.not_lt_zero j)⟩
    · rw [if_neg hp] at h
      cases hrec : findMatchIdx guessLc rest with
      | none => rw [hrec] at h; simp at h
      | some k =>
        rw [hrec] at h
        simp at h
        subst h
        obtain ⟨h1, h2, h3⟩ := ih k hrec
        refine ⟨Nat.succ_lt_succ h1, by simpa using h2, ?_⟩
        intro j hj
        cases j with
        | zero => simpa using Bool.eq_false_iff.mpr hp
        | succ j2 =>
          simp only [List.getD_cons_succ]
          exact h3 j2 (by omega)

lemma findMatchIdx_none (guessLc : Str) :
    ∀ (l : List (List Str × Bool)), findMatchIdx guessLc l = none →
      ∀ j, j < l.length → matchPred guessLc (l.getD j ([], true)) = false := by
  intro l
  induction l with
  | nil => intro h j hj; simp at hj
  | cons rg rest ih =>
    intro h j hj
    rw [findMatchIdx] at h
    by_cases hp : matchPred guessLc rg = true
    · rw [if_pos hp] at h; simp at h
    · rw [if_neg hp] at h
      cases hrec : findMatchIdx guessLc rest with
      | some k => rw [hrec] at h; simp at h
      | none =>
        cases j with
        | zero => simpa using Bool.eq_false_iff.mpr hp
        | succ j2 =>
          simp only [List.getD_cons_succ]
          exact ih hrec j2 (by simpa using hj)

lemma isRevealLine_ne_nil (g : Str) (h : isRevealLine g = true) :
    g.isEmpty = false := by
  cases g with
  | nil => exact absurd (eq_of_beq h) (by decide)
  | cons c t => rfl

lemma processLine_reveal (rows : List (List Str)) (pts : List ℕ)
    (st : GameState) (line : Str) (h : isRevealLine (trimStr line) = true) :
    processLine rows pts st line = (st, true) := by
  simp only [processLine]
  rw [isRevealLine_ne_nil _ h, if_neg Bool.false_ne_true, h, if_pos rfl]

lemma processLine_break (rows : List (List Str)) (pts : List ℕ)
    (st : GameState) (line : Str) (st2 : GameState)
    (h : processLine rows pts st line = (st2, true)) :
    isRevealLine (trimStr line) = true := by
  simp only [processLine] at h
  by_cases hEmpty : (trimStr line).isEmpty = true
  · rw [if_pos hEmpty] at h; simp at h
  · rw [if_neg hEmpty] at h
    by_cases hRev : isRevealLine (trimStr line) = true
    · exact hRev
    · rw [if_neg hRev] at h
      by_cases hAl : alreadyGot rows st.guessed (lowerStr (trimStr line)) = true
      · rw [if_pos hAl] at h; simp at h
      · rw [if_neg hAl] at h
        cases hF : findMatchIdx (lowerStr (trimStr line)) (rows.zip st.guessed) with
        | some k => rw [hF] at h; simp at h
        | none => rw [hF] at h; simp at h

lemma processLine_state_cases (rows : List (List Str)) (pts : List ℕ)
    (st : GameState) (line : Str) :
    (processLine rows pts st line).1 = st ∨
    (∃ i, i < st.guessed.length ∧ st.guessed.getD i false = false ∧
      (processLine rows pts st line).1 =
        { guessed := st.guessed.set i true, correct := st.correct + 1,
          strikes := st.strikes, score := st.score + pts.getD i 0 }) ∨
    (processLine rows pts st line).1 = { st with strikes := st.strikes + 1 } := by
  by_cases hEmpty : (trimStr line).isEmpty = true
  · left; simp only [processLine]; rw [if_pos hEmpty]
  · by_cases hRev : isRevealLine (trimStr line) = true
    · left; rw [processLine_reveal rows pts st line hRev]
    · by_cases hAl : alreadyGot rows st.guessed (lowerStr (trimStr line)) = true
      · left
        simp only [processLine]
        rw [if_neg hEmpty, if_neg hRev, if_pos hAl]
      · cases hF : findMatchIdx (lowerStr (trimStr line)) (rows.zip st.guessed) with
        | some k =>
          right; left
          have hk := findMatchIdx_some _ _ k hF
          have hzlen := hk.1
          have hklen : k < st.guessed.length := by
            rw [List.length_zip] at hzlen; omega
          have hgf : st.guessed.getD k false = false := by
            have h2 := hk.2.1
            rw [getD_zip rows st.guessed k hzlen [] true, matchPred] at h2
            simp only [Bool.and_eq_true, Bool.not_eq_true'] at h2
            rw [getD_eq_getD st.guessed k hklen false true]
            exact h2.1
          refine ⟨k, hklen, hgf, ?_⟩
          simp only [processLine]
          rw [if_neg hEmpty, if_neg hRev, if_neg hAl, hF]
        | none =>
          right; right
          simp only [processLine]
          rw [if_neg hEmpty, if_neg hRev, if_neg hAl, hF]

lemma processLine_inv (rows : List (List Str)) (pts : List ℕ) (st : GameState)
    (line : Str) (hg : st.guessed.length = rows.length)
    (hc : st.correct = st.guessed.count true) (hs : st.strikes ≤ 2) :
    (processLine rows pts st line).1.guessed.length = rows.length ∧
    (processLine rows pts st line).1.correct =
      (processLine rows pts st line).1.guessed.count true ∧
    (processLine rows pts st line).1.strikes ≤ 3 := by
  rcases processLine_state_cases rows pts st line with h | ⟨i, hi, hif, h⟩ | h <;>
    rw [h]
  · exact ⟨hg, hc, by omega⟩
  · exact ⟨show (st.guessed.set i true).length = rows.length by simpa using hg,
      show st.correct + 1 = (st.guessed.set i true).count true by
        rw [count_set_true st.guessed i hi hif, hc],
      show st.strikes ≤ 3 by omega⟩
  · exact ⟨hg, hc, show st.strikes + 1 ≤ 3 by omega⟩

lemma count_true_replicate_false (n : ℕ) :
    (List.replicate n false).count true = 0 := by
  induction n with
  | zero => rfl
  | succ k ih => simp [List.replicate_succ, List.count_cons, ih]

lemma runTrivia_nil_eq (rows : List (List Str)) (pts : List ℕ) (st : GameState) :
    runTrivia rows pts st [] =
      (if st.correct = rows.length then (st, Outcome.won)
       else if 3 ≤ st.strikes then (st, Outcome.lost)
       else (st, Outcome.outOfInput)) := rfl

lemma runTrivia_cons_eq (rows : List (List Str)) (pts : List ℕ)
    (st : GameState) (l : Str) (ls : List Str) :
    runTrivia rows pts st (l :: ls) =
      (if st.correct = rows.length then (st, Outcome.won)
       else if 3 ≤ st.strikes then (st, Outcome.lost)
       else match processLine rows pts st l with
         | (st2, true) => (st2, Outcome.revealed)
         | (st2, false) => runTrivia rows pts st2 ls) := rfl

lemma runTrivia_won (rows : List (List Str)) (pts : List ℕ) (st : GameState)
    (lines : List Str) (h1 : st.correct = rows.length) :
    runTrivia rows pts st lines = (st, Outcome.won) := by
  cases lines with
  | nil => rw [runTrivia_nil_eq, if_pos h1]
  | cons l ls => rw [runTrivia_cons_eq, if_pos h1]

lemma runTrivia_lost (rows : List (List Str)) (pts : List ℕ) (st : GameState)
    (lines : List Str) (h1 : st.correct ≠ rows.length) (h2 : 3 ≤ st.strikes) :
    runTrivia rows pts st lines = (st, Outcome.lost) := by
  cases lines with
  | nil => rw [runTrivia_nil_eq, if_neg h1, if_pos h2]
  | cons l ls => rw [runTrivia_cons_eq, if_neg h1, if_pos h2]

lemma runTrivia_oov (rows : List (List Str)) (pts : List ℕ) (st : GameState)
    (h1 : st.correct ≠ rows.length) (h2 : ¬ 3 ≤ st.strikes) :
    runTrivia rows pts st [] = (st, Outcome.outOfInput) := by
  rw [runTrivia_nil_eq, if_neg h1, if_neg h2]

lemma runTrivia_cons_break (rows : List (List Str)) (pts : List ℕ)
    (st : GameState) (l : Str) (ls : List Str) (st2 : GameState)
    (h1 : st.correct ≠ rows.length) (h2 : ¬ 3 ≤ st.strikes)
    (hP : processLine rows pts st l = (st2, true)) :
    runTrivia rows pts st (l :: ls) = (st2, Outcome.revealed) := by
  rw [runTrivia_cons_eq, if_neg h1, if_neg h2, hP]

lemma runTrivia_cons_cont (rows : List (List Str)) (pts : List ℕ)
    (st : GameState) (l : Str) (ls : List Str) (st2 : GameState)
    (h1 : st.correct ≠ rows.length) (h2 : ¬ 3 ≤ st.strikes)
    (hP : processLine rows pts st l = (st2, false)) :
    runTrivia rows pts st (l :: ls) = runTrivia rows pts st2 ls := by
  rw [runTrivia_cons_eq, if_neg h1, if_neg h2, hP]

lemma runTrivia_spec (rows : List (List Str)) (pts : List ℕ) :
    ∀ (lines : List Str) (st : GameState),
      st.guessed.length = rows.length →
      st.correct = st.guessed.count true →
      st.strikes ≤ 3 →
      ((runTrivia rows pts st lines).1.correct ≤ rows.length ∧
       (runTrivia rows pts st lines).1.strikes ≤ 3) ∧
      ((runTrivia rows pts st lines).2 = Outcome.won ↔
        (runTrivia rows pts st lines).1.correct = rows.length) ∧
      ((runTrivia rows pts st lines).2 = Outcome.lost ↔
        ((runTrivia rows pts st lines).1.correct ≠ rows.length ∧
         3 ≤ (runTrivia rows pts st lines).1.strikes)) ∧
      ((runTrivia rows pts st lines).2 = Outcome.revealed →
        (runTrivia rows pts st lines).1.strikes < 3 ∧
        (runTrivia rows pts st lines).1.correct < rows.length) := by
  intro lines
  induction lines with
  | nil =>
    intro st hg hc hs
    have hcle : st.correct ≤ rows.length := by
      rw [hc, ← hg]; exact List.count_le_length true st.guessed
    by_cases h1 : st.correct = rows.length
    · rw [runTrivia_won rows pts st [] h1]
      exact ⟨⟨le_of_eq h1, hs⟩, ⟨fun _ => h1, fun _ => rfl⟩,
        ⟨fun h => by simp at h, fun h => absurd h1 h.1⟩, fun h => by simp at h⟩
    · by_cases h2 : 3 ≤ st.strikes
      · rw [runTrivia_lost rows pts st [] h1 h2]
        exact ⟨⟨hcle, hs⟩, ⟨fun h => by simp at h, fun h => absurd h h1⟩,
          ⟨fun _ => ⟨h1, h2⟩, fun _ => rfl⟩, fun h => by simp at h⟩
      · rw [runTrivia_oov rows pts st h1 h2]
        exact ⟨⟨hcle, hs⟩, ⟨fun h => by simp at h, fun h => absurd h h1⟩,
          ⟨fun h => by simp at h, fun h => absurd h.2 h2⟩, fun h => by simp at h⟩
  | cons l ls ih =>
    intro st hg hc hs
    have hcle : st.correct ≤ rows.length := by
      rw [hc, ← hg]; exact List.count_le_length true st.guessed
    by_cases h1 : st.correct = rows.length
    · rw [runTrivia_won rows pts st (l :: ls) h1]
      exact ⟨⟨le_of_eq h1, hs⟩, ⟨fun _ => h1, fun _ => rfl⟩,
        ⟨fun h => by simp at h, fun h => absurd h1 h.1⟩, fun h => by simp at h⟩
    · by_cases h2 : 3 ≤ st.strikes
      · rw [runTrivia_lost rows pts st (l :: ls) h1 h2]
        exact ⟨⟨hcle, hs⟩, ⟨fun h => by simp at h, fun h => absurd h h1⟩,
          ⟨fun _ => ⟨h1, h2⟩, fun _ => rfl⟩, fun h => by simp at h⟩
      · rcases hP : processLine rows pts st l with ⟨st2, brk⟩
        cases brk with
        | true =>
          have hRev := processLine_break rows pts st l st2 hP
          have hEq : processLine rows pts st l = (st, true) :=
            processLine_reveal rows pts st l hRev
          injection hP.symm.trans hEq with hEq2 _
          rw [hEq2] at hP
          rw [runTrivia_cons_break rows pts st l ls st h1 h2 hP]
          exact ⟨⟨hcle, hs⟩, ⟨fun h => by simp at h, fun h => absurd h h1⟩,
            ⟨fun h => by simp at h, fun h => absurd h.2 h2⟩,
            fun _ => ⟨show st.strikes < 3 by omega, lt_of_le_of_ne hcle h1⟩⟩
        | false =>
          have hInv := processLine_inv rows pts st l hg hc (by omega)
          rw [hP] at hInv
          rw [runTrivia_cons_cont rows pts st l ls st2 h1 h2 hP]
          exact ih st2 hInv.1 hInv.2.1 hInv.2.2

/-- Claim C6: starting from the initial state, after any list of
processed input lines `correctCount ≤ rowCount` and `strikeCount ≤ 3`
hold; the loop ends in Won exactly when `correctCount = rowCount`, in
Lost exactly when the strikes reached 3 (with the board unfinished), a
Revealed end leaves strikes strictly below 3 and the board unfinished;
moreover the case-insensitive reveal command terminates the loop with the
state unchanged (no strike), and no other input line breaks the loop. -/
theorem run_trivia_invariants (rows : List (List Str)) (pts : List ℕ)
    (lines : List Str) :
    (((runTrivia rows pts (initState rows.length) lines).1.correct ≤ rows.length ∧
      (runTrivia rows pts (initState rows.length) lines).1.strikes ≤ 3) ∧
     ((runTrivia rows pts (initState rows.length) lines).2 = Outcome.won ↔
       (runTrivia rows pts (initState rows.length) lines).1.correct = rows.length) ∧
     ((runTrivia rows pts (initState rows.length) lines).2 = Outcome.lost ↔
       ((runTrivia rows pts (initState rows.length) lines).1.correct ≠ rows.length ∧
        3 ≤ (runTrivia rows pts (initState rows.length) lines).1.strikes)) ∧
     ((runTrivia rows pts (initState rows.length) lines).2 = Outcome.revealed →
       (runTrivia rows pts (initState rows.length) lines).1.strikes < 3 ∧
       (runTrivia rows pts (initState rows.length) lines).1.correct < rows.length)) ∧
    (∀ (st : GameState) (line : Str), isRevealLine (trimStr line) = true →
      processLine rows pts st line = (st, true)) ∧
    (∀ (st : GameState) (line : Str) (st2 : GameState),
      processLine rows pts st line = (st2, true) →
      isRevealLine (trimStr line) = true) := by
  refine ⟨?_, fun st line h => processLine_reveal rows pts st line h,
    fun st line st2 h => processLine_break rows pts st line st2 h⟩
  exact runTrivia_spec rows pts lines (initState rows.length)
    (by simp [initState]) (by simp [initState, count_true_replicate_false])
    (by simp [initState])

/-- Witness for `run_trivia_invariants`: three misses on the two-row
board end the round Lost. -/
theorem run_trivia_invariants_witness :
    (runTrivia gRows gPts (initState gRows.length) c6Lines).2 = Outcome.lost :=
  ((run_trivia_invariants gRows gPts c6Lines).1.2.2.1).mpr (by decide)

/-- Claim C7: on a non-empty, non-reveal, non-duplicate guess, a row
matches exactly when the lower-cased guess is a contiguous substring of
the row's lower-cased answer field or conversely; the first matching
not-yet-guessed row in original row order is marked guessed, correctCount
grows by one and the row's precomputed point value is added to the score;
with no matching row, strikeCount grows by one and nothing else changes. -/
theorem guess_match_step (rows : List (List Str)) (pts : List ℕ)
    (st : GameState) (line : Str)
    (hne : (trimStr line).isEmpty = false)
    (hnr : isRevealLine (trimStr line) = false)
    (hna : alreadyGot rows st.guessed (lowerStr (trimStr line)) = false) :
    (∀ ans : Str, matchesGuess ans (lowerStr (trimStr line)) = true ↔
      ((∃ u v, ans = u ++ lowerStr (trimStr line) ++ v) ∨
       (∃ u v, lowerStr (trimStr line) = u ++ ans ++ v))) ∧
    (∀ i, findMatchIdx (lowerStr (trimStr line)) (rows.zip st.guessed) = some i →
      processLine rows pts st line =
        ({ guessed := st.guessed.set i true, correct := st.correct + 1,
           strikes := st.strikes, score := st.score + pts.getD i 0 }, false) ∧
      i < (rows.zip st.guessed).length ∧
      matchPred (lowerStr (trimStr line))
        ((rows.zip st.guessed).getD i ([], true)) = true ∧
      ∀ j, j < i → matchPred (lowerStr (trimStr line))
        ((rows.zip st.guessed).getD j ([], true)) = false) ∧
    (findMatchIdx (lowerStr (trimStr line)) (rows.zip st.guessed) = none →
      processLine rows pts st line =
        ({ st with strikes := st.strikes + 1 }, false)) := by
  refine ⟨?_, ?_, ?_⟩
  · intro ans
    rw [matchesGuess, Bool.or_eq_true, strContains_iff, strContains_iff]
  · intro i hF
    have hk := findMatchIdx_some _ _ i hF
    refine ⟨?_, hk.1, hk.2.1, hk.2.2⟩
    simp only [processLine]
    rw [hne, if_neg Bool.false_ne_true, hnr, if_neg Bool.false_ne_true, hna,
      if_neg Bool.false_ne_true, hF]
  · intro hF
    simp only [processLine]
    rw [hne, if_neg Bool.false_ne_true, hnr, if_neg Bool.false_ne_true, hna,
      if_neg Bool.false_ne_true, hF]

/-- Witness for `guess_match_step`: on the spec §8 board, the guess
`brady` marks the first row (Tom Brady) guessed and scores its points. -/
theorem guess_match_step_witness :
    processLine gRows gPts (initState 2) "brady".toList =
      ({ guessed := (initState 2).guessed.set 0 true,
         correct := (initState 2).correct + 1,
         strikes := (initState 2).strikes,
         score := (initState 2).score + gPts.getD 0 0 }, false) ∧
    (initState 2).guessed.set 0 true = [true, false] :=
  ⟨((guess_match_step gRows gPts (initState 2) "brady".toList (by decide)
      (by decide) (by decide)).2.1 0 (by decide)).1, by decide⟩

/-- Claim C8, counterexample: the reveal command is checked before the
already-guessed scan, so a guess of `reveal` that also matches an
already-guessed answer (`Reveal Johnson`) terminates the round instead of
being reported as a duplicate no-op. -/
theorem duplicate_guess_cex :
    alreadyGot c8Rows c8St.guessed (lowerStr (trimStr "reveal".toList)) = true ∧
    processLine c8Rows c8Pts c8St "reveal".toList = (c8St, true) := by
  decide

/-- Claim C8 (amended): for every guess that is non-empty after trimming
and is not the reveal command, if the guess matches the answer of some
row already marked guessed, processing it leaves the whole game state
unchanged and the loop continues — no strike, no flag, no score change. -/
theorem duplicate_guess_noop (rows : List (List Str)) (pts : List ℕ)
    (st : GameState) (line : Str)
    (hne : (trimStr line).isEmpty = false)
    (hnr : isRevealLine (trimStr line) = false)
    (hdup : alreadyGot rows st.guessed (lowerStr (trimStr line)) = true) :
    processLine rows pts st line = (st, false) := by
  simp only [processLine]
  rw [hne, if_neg Bool.false_ne_true, hnr, if_neg Bool.false_ne_true, hdup,
    if_pos rfl]

/-- Witness for `duplicate_guess_noop`: repeating `Brady` after Tom Brady
is already guessed changes nothing. -/
theorem duplicate_guess_noop_witness :
    processLine gRows gPts w8St "Brady".toList = (w8St, false) :=
  duplicate_guess_noop gRows gPts w8St "Brady".toList (by decide) (by decide)
    (by decide)

end ClaimTheorems

end KnowBall
